/- A formal model of the NIS data-cleaning core (nisapi.clean): the column
value editor, the cross-column borrower, the time range splitter, the
age-group validator, the deduplication/reconciliation engine with its synonym
resolver, and schema enforcement. Each definition is a list-level shallow
embedding of the corresponding polars code in src/nisapi/clean; floats are
modelled as exact rationals, column values as lists of characters, dates as
epoch-day integers, and a data frame as a list of rows (or, for schema
enforcement, as an ordered list of named columns). -/
import Mathlib

set_option maxHeartbeats 1000000

namespace Nis

/-- Column values are strings, modelled as lists of characters. -/
abbrev Str := List Char

/-- Shorthand turning a Lean string literal into a `Str`. -/
def chars (s : String) : Str := s.toList

/-- `strStarts pat s`: the phrase `pat` stands at the start of `s`. -/
def strStarts : Str → Str → Bool
  | [], _ => true
  | _ :: _, [] => false
  | p :: ps, c :: cs => p == c && strStarts ps cs

/-- `strContains s pat` models polars `Expr.str.contains` for a plain phrase
(no regex metacharacters): `pat` occurs contiguously somewhere in `s`. -/
def strContains : Str → Str → Bool
  | [], pat => pat.isEmpty
  | c :: cs, pat => strStarts pat (c :: cs) || strContains cs pat

/-- The " & " separator used by `_replace_column_values` when appending
(helpers.py line 712). -/
def ampSep : Str := [' ', '&', ' ']

/-- Python `" & ".join(phrase)` where `phrase` is a string (helpers.py line
712): joining iterates over the CHARACTERS of the phrase, so the result is the
phrase's characters interleaved with " & ", not the phrase itself. -/
def joinAmp : Str → Str
  | [] => []
  | [c] => [c]
  | c :: cs => c :: (ampSep ++ joinAmp cs)

/-- Per-value semantics of the `append` loop of `_replace_column_values`
(helpers.py lines 705-713): phrases are folded in order over the current
value; a phrase not already contained appends `" & " ++ joinAmp phrase`. -/
def appendLoop (app : List Str) (v : Str) : Str :=
  app.foldl
    (fun acc phrase =>
      if strContains acc phrase then acc else acc ++ ampSep ++ joinAmp phrase) v

/-- The append step as the spec and claim word it: a missing phrase is itself
appended to the value after the " & " separator. -/
def specAppendLoop (app : List Str) (v : Str) : Str :=
  app.foldl
    (fun acc phrase =>
      if strContains acc phrase then acc else acc ++ ampSep ++ phrase) v

/-- Per-value semantics of the `infer` loop of `_replace_column_values`
(helpers.py lines 714-720): the polars expression is rebuilt at each
iteration with the previous expression in both the condition and the
otherwise branch, so each trigger is tested against the value produced by the
EARLIER triggers, and on a match the whole value becomes the mapped output. -/
def inferLoop (infer : List (Str × Str)) (v : Str) : Str :=
  infer.foldl (fun acc t => if strContains acc t.1 then t.2 else acc) v

/-- The infer step as the claim words it: the first trigger contained in the
incoming value wins, its mapped output replaces the whole value, and later
triggers apply only where no earlier trigger matched. -/
def specFirstMatchInfer (infer : List (Str × Str)) (v : Str) : Str :=
  match infer.find? (fun t => strContains v t.1) with
  | some t => t.2
  | none => v

/-- The `transfer` loop of `_borrow_column_values` (helpers.py lines 747-755).
Each iteration rebinds `new_values` to a fresh when/then/otherwise expression
built from the ORIGINAL recipient and donor columns (not from the previous
`new_values`), so after the loop only the LAST phrase's expression remains.
For an empty list the Python name `new_values` is never bound, modelled as
`none`. The payload is the per-row function (recipient, donor) ↦ new value. -/
def transferLoop (transfer : List Str) : Option (Str → Str → Str) :=
  transfer.foldl
    (fun _prev phrase =>
      some (fun recip donor =>
        if strContains donor phrase then recip ++ phrase else recip))
    none

/-- The transfer step as the spec and claim word it: every phrase contained in
the donor value appends its value to the recipient, independently and in
order; phrases are not mutually exclusive. -/
def specTransfer (transfer : List Str) (recip donor : Str) : Str :=
  transfer.foldl
    (fun acc phrase => if strContains donor phrase then acc ++ phrase else acc)
    recip

/-- polars `str.extract(r"^(.*?)-")`: the non-greedy group is the text before
the FIRST dash; no match (null) when the string holds no dash. Used by
`clean_time_start_end`'s "both" branch (helpers.py lines 482-483) and by
`clean_lci_uci`'s "full" branch. -/
def extractBeforeDash (s : Str) : Option Str :=
  if '-' ∈ s then some (s.takeWhile (fun c => c != '-')) else none

/-- polars `str.extract(r"-(.*)", 1)`: the text after the first dash (the
extraction `clean_lci_uci` uses for the upper bound, and the one the spec
describes for the end of a time range). -/
def extractAfterDash (s : Str) : Option Str :=
  if '-' ∈ s then some ((s.dropWhile (fun c => c != '-')).drop 1) else none

/-- polars `str.strip_chars()` with no argument: strip leading and trailing
whitespace. -/
def stripChars (s : Str) : Str :=
  ((s.dropWhile Char.isWhitespace).reverse.dropWhile Char.isWhitespace).reverse

/-- The `col_format == "both"` branch of `clean_time_start_end` for a single
range column (helpers.py lines 480-484): the (time_start, time_end) strings as
assembled before date parsing. BOTH fields use `extract(r"^(.*?)-")`, the text
before the first dash. -/
def cleanTimeBothStrings (v : Str) : Option Str × Option Str :=
  ((extractBeforeDash v).map stripChars, (extractBeforeDash v).map stripChars)

/-- The range split as the spec and claim word it ("A - B" is string-split):
time_start from the part before the separator, time_end from the part after
it. -/
def specTimeBothStrings (v : Str) : Option Str × Option Str :=
  ((extractBeforeDash v).map stripChars, (extractAfterDash v).map stripChars)

/-- Consume one or more leading ASCII digits (`\d+`); `none` when the string
does not start with a digit, else the rest after the maximal digit run. -/
def dropDigits1 : Str → Option Str
  | [] => none
  | c :: cs => if c.isDigit then some (cs.dropWhile Char.isDigit) else none

/-- `^\d+-\d+ (months|years)$` — regex1 of `Validate.is_valid_age_group`
(clean/__init__.py line 331). -/
def ageShapeRange (s : Str) : Bool :=
  match dropDigits1 s with
  | some ('-' :: s1) =>
    match dropDigits1 s1 with
    | some (' ' :: s2) => s2 == chars "months" || s2 == chars "years"
    | _ => false
  | _ => false

/-- `^\d+\+ (years|months)$` — regex2 (clean/__init__.py line 332). -/
def ageShapePlus (s : Str) : Bool :=
  match dropDigits1 s with
  | some ('+' :: ' ' :: s1) => s1 == chars "years" || s1 == chars "months"
  | _ => false

/-- `^\d+ months-\d+ years$` — regex3 (clean/__init__.py line 333). -/
def ageShapeMonthsYears (s : Str) : Bool :=
  match dropDigits1 s with
  | some s1 =>
    if strStarts (chars " months-") s1 then
      match dropDigits1 (s1.drop 8) with
      | some s2 => s2 == chars " years"
      | none => false
    else false
  | none => false

/-- `^\d+-\d+ years \(high risk\)$` — regex4 (clean/__init__.py line 334). -/
def ageShapeHighRisk (s : Str) : Bool :=
  match dropDigits1 s with
  | some ('-' :: s1) =>
    match dropDigits1 s1 with
    | some s2 => s2 == chars " years (high risk)"
    | _ => false
  | _ => false

/-- `Validate.is_valid_age_group` (clean/__init__.py lines 324-340): the
disjunction of the four regexes of the source. -/
def isValidAgeGroup (s : Str) : Bool :=
  ageShapeRange s || ageShapePlus s || ageShapeMonthsYears s || ageShapeHighRisk s

/-- The four accepted shapes exactly as the claim lists them: "N-M years",
"N-M months", "N+ years|months", "N months-M years" — the high-risk shape is
not among them. -/
def claimedAgeShapes (s : Str) : Bool :=
  ageShapeRange s || ageShapePlus s || ageShapeMonthsYears s

/-- The (domain_type, domain) part of a row, all `validate_age_groups`
inspects. -/
structure DomainRow where
  domain_type : Str
  domain : Str
deriving DecidableEq

/-- `Validate.validate_age_groups` (clean/__init__.py lines 300-312): the
distinct domain values of rows with domain_type "age" that fail
`is_valid_age_group` — the list of invalid age groups the validator reports
(it reports a problem exactly when this list is nonempty). -/
def validateAgeGroups (df : List DomainRow) : List Str :=
  (((df.filter (fun r => r.domain_type == chars "age")).map DomainRow.domain).dedup).filter
    (fun v => !(isValidAgeGroup v))

/-- The group columns of `remove_duplicates`: every column of `data_schema`
(helpers.py lines 7-24) except the value columns estimate, lci, uci
(helpers.py lines 637-638). Dates are epoch-day integers. -/
structure GroupKey where
  vaccine : Str
  geography_type : Str
  geography : Str
  domain_type : Str
  domain : Str
  indicator_type : Str
  indicator : Str
  time_type : Str
  time_start : Int
  time_end : Int
  sample_size : Nat
deriving DecidableEq

/-- A cleaned row: the group columns plus the three numeric value columns,
modelled as exact rationals. -/
structure Row where
  key : GroupKey
  estimate : ℚ
  lci : ℚ
  uci : ℚ
deriving DecidableEq

/-- polars `Expr.mean` over a group's values. -/
def colMean (xs : List ℚ) : ℚ := xs.sum / xs.length

/-- `(x - x.mean()).abs().max()` of `_mean_max_diff` (helpers.py line 654).
The fold identity 0 is sound: every |·| is nonnegative and every group is
nonempty, so the fold is the maximum. -/
def maxAbsDev (xs : List ℚ) : ℚ :=
  (xs.map (fun x => |x - colMean xs|)).foldr max 0

/-- `_mean_max_diff` (helpers.py lines 653-654): the per-group, per-column
acceptance test `max |x - mean x| < tolerance` (a strict inequality). -/
def meanMaxDiff (xs : List ℚ) (tolerance : ℚ) : Bool :=
  decide (maxAbsDev xs < tolerance)

/-- The distinct group keys of a table (polars `group_by` on the group
columns). -/
def keysOf (df : List Row) : List GroupKey := (df.map Row.key).dedup

/-- The rows of one group. -/
def groupRows (df : List Row) (k : GroupKey) : List Row :=
  df.filter (fun r => decide (r.key = k))

/-- `pl.all_horizontal(value_columns)` of one aggregated group (helpers.py
line 643): the `_mean_max_diff` test holds for estimate, lci and uci. -/
def groupOk (df : List Row) (tolerance : ℚ) (k : GroupKey) : Bool :=
  meanMaxDiff ((groupRows df k).map Row.estimate) tolerance &&
  meanMaxDiff ((groupRows df k).map Row.lci) tolerance &&
  meanMaxDiff ((groupRows df k).map Row.uci) tolerance

/-- `bad_groups` (helpers.py lines 640-645): the groups where the horizontal
conjunction of the tests is false. -/
def badGroups (df : List Row) (tolerance : ℚ) : List GroupKey :=
  (keysOf df).filter (fun k => !(groupOk df tolerance k))

/-- One collapsed group: the key plus the column-wise means (helpers.py line
650). -/
def collapseGroup (df : List Row) (k : GroupKey) : Row :=
  { key := k
    estimate := colMean ((groupRows df k).map Row.estimate)
    lci := colMean ((groupRows df k).map Row.lci)
    uci := colMean ((groupRows df k).map Row.uci) }

/-- The outcome of `remove_duplicates`: the `RuntimeError` raised on clashing
groups (the spec's `ReconciliationConflict`), or the collapsed table. -/
inductive DedupResult where
  | reconciliationConflict (bad : List GroupKey)
  | ok (rows : List Row)
deriving DecidableEq

/-- `remove_duplicates` without synonym arguments (helpers.py lines 585-650):
group by the group columns, test `_mean_max_diff` for every value column of
every group, raise on any bad group, else collapse every group to the
column-wise mean of its value columns. -/
def remove_duplicates (df : List Row) (tolerance : ℚ) : DedupResult :=
  if badGroups df tolerance = [] then .ok ((keysOf df).map (collapseGroup df))
  else .reconciliationConflict (badGroups df tolerance)

/-- A row as the synonym step sees it: `syn` holds its values in the declared
synonym columns, `rest` the values of every other column (the numeric columns
included). -/
structure SynRow (S R : Type) where
  syn : S
  rest : R
deriving DecidableEq

/-- One `sub_df` (helpers.py lines 605-612): the rows matching one synonym's
values in the synonym columns. -/
def synFilter {S R : Type} [DecidableEq S] (df : List (SynRow S R)) (s : S) :
    List (SynRow S R) :=
  df.filter (fun r => decide (r.syn = s))

/-- Dropping the synonym columns from a set of rows leaves their `rest`
parts. -/
def restsOf {S R : Type} (l : List (SynRow S R)) : List R := l.map SynRow.rest

/-- Python `max(range(len(sub_dfs)), key=lambda idx: sub_dfs[idx].height)`
(helpers.py line 613): the FIRST index attaining the maximum (Python's `max`
keeps the earliest of tied elements). -/
def argmaxIdx : List Nat → Nat
  | [] => 0
  | v :: vs => if v < vs.getD (argmaxIdx vs) 0 then argmaxIdx vs + 1 else 0

/-- The list of `sub_dfs` (helpers.py lines 605-612). -/
def synSubs {S R : Type} [DecidableEq S] (df : List (SynRow S R))
    (syns : List S) : List (List (SynRow S R)) :=
  syns.map (synFilter df)

/-- `ref_idx` (helpers.py line 613). -/
def refIdxOf {S R : Type} [DecidableEq S] (df : List (SynRow S R))
    (syns : List S) : Nat :=
  argmaxIdx ((synSubs df syns).map List.length)

/-- `sub_dfs[ref_idx]`, the majority synonym's rows (still labeled). -/
def refSubOf {S R : Type} [DecidableEq S] (df : List (SynRow S R))
    (syns : List S) : List (SynRow S R) :=
  (synSubs df syns).getD (refIdxOf df syns) []

/-- The rest-parts of `pl.concat(sub_dfs)` (helpers.py line 629), used for the
final anti-join on the non-synonym columns. -/
def allRests {S R : Type} (subs : List (List (SynRow S R))) : List R :=
  (subs.map restsOf).flatten

/-- The union of every synonym's `extra_rows` (helpers.py lines 615-619): the
rest-parts of synonym rows with no counterpart among the majority synonym's
rest-parts. The code raises on the first synonym whose batch is nonempty;
raising is equivalent to this union being nonempty. -/
def mismatches {S R : Type} [DecidableEq R]
    (subs : List (List (SynRow S R))) (refRest : List R) : List R :=
  (subs.map (fun sub => (restsOf sub).filter (fun x => decide (x ∉ refRest)))).flatten

/-- The outcome of the synonym step: the Python ValueError path on an empty
synonym list (`max` over an empty range), the `RuntimeError` "Declared
synonyms are not really synonyms" (the spec's `SynonymMismatch`), the
ShapeError polars raises from the final positional `pl.concat` when the two
operands' column orders differ, or the rewritten table. -/
inductive SynResult (S R : Type) where
  | invalidConfig
  | synonymMismatch (extras : List R)
  | shapeError
  | ok (rows : List (SynRow S R))
deriving DecidableEq

/-- The column order `ref_df` carries into the final concat (helpers.py lines
614 and 623-625): `drop(synonym_columns)` keeps the remaining columns in table
order, and the relabeling `with_columns` re-adds the synonym columns as NEW
columns, which polars appends at the END. -/
def refDfCols (cols synCols : List Str) : List Str :=
  cols.filter (fun c => decide (c ∉ synCols)) ++ synCols

/-- The row set the synonym step is meant to deliver (helpers.py lines
626-635, the spec's keep/relabel/discard): the rows matching no synonym on
the non-synonym columns, plus the majority synonym's rows relabeled with the
first-listed synonym's values. -/
def synResolvedRows {S R : Type} [DecidableEq S] [DecidableEq R]
    (df : List (SynRow S R)) (s₀ : S) (srest : List S) : List (SynRow S R) :=
  (df.filter (fun r => decide (r.rest ∉ allRests (synSubs df (s₀ :: srest))))) ++
    (refSubOf df (s₀ :: srest)).map (fun r => { syn := s₀, rest := r.rest })

/-- The synonym step of `remove_duplicates` (helpers.py lines 599-635):
partition the rows by synonym membership, check that every synonym's rest-rows
are covered by the majority synonym's and raise otherwise, then assemble the
result with `pl.concat([anti-joined df, ref_df])`.

`cols` is the table's column-name order and `synCols` the declared synonym
columns (the row payloads `S`, `R` carry the values those columns hold). The
anti-joined left operand keeps the table's order `cols`, while `ref_df`
carries `refDfCols cols synCols`; polars' vertical concat is positional and
raises a ShapeError when the two orders differ — i.e. whenever the synonym
columns are not exactly the trailing columns of the table — so the rewritten
table is returned only in that aligned case. -/
def resolveSynonyms {S R : Type} [DecidableEq S] [DecidableEq R]
    (cols synCols : List Str) (df : List (SynRow S R)) : List S → SynResult S R
  | [] => .invalidConfig
  | s₀ :: srest =>
    if mismatches (synSubs df (s₀ :: srest)) (restsOf (refSubOf df (s₀ :: srest))) = [] then
      if cols = refDfCols cols synCols then .ok (synResolvedRows df s₀ srest)
      else .shapeError
    else .synonymMismatch (mismatches (synSubs df (s₀ :: srest))
      (restsOf (refSubOf df (s₀ :: srest))))

/-- The first declared synonym of the concat counterexample:
("indicator_type", "indicator") values, abbreviated. -/
def exC2syn0 : Str × Str := (chars "a", chars "x")

/-- The second declared synonym of the concat counterexample. -/
def exC2syn1 : Str × Str := (chars "b", chars "y")

/-- Two rows denoting the same observation under the two synonyms: the
superset check passes on this table. -/
def exC2df : List (SynRow (Str × Str) Str) :=
  [⟨exC2syn0, chars "r"⟩, ⟨exC2syn1, chars "r"⟩]

/-- The declared synonym columns of the ker6_gs6z pipeline. -/
def exC2synCols : List Str := [chars "indicator_type", chars "indicator"]

/-- A column layout with the synonym columns not trailing, as in the
ker6_gs6z pipeline at the point `remove_duplicates` runs (`clean_lci_uci`
appends lci and uci after the indicator columns). -/
def exC2cols : List Str :=
  [chars "indicator_type", chars "indicator", chars "estimate", chars "lci",
   chars "uci"]

/-- The canonical schema's ordered column names (`data_schema`, helpers.py
lines 7-24). -/
def schemaNames : List Str :=
  [chars "vaccine", chars "geography_type", chars "geography",
   chars "domain_type", chars "domain", chars "indicator_type",
   chars "indicator", chars "time_type", chars "time_start",
   chars "time_end", chars "estimate", chars "lci", chars "uci",
   chars "sample_size"]

/-- The outcome of `enforce_schema`: the `RuntimeError` "Missing columns" (the
spec's `MissingColumns`), or the restricted and reordered table. -/
inductive SchemaResult (C : Type) where
  | missingColumns (missing : List Str)
  | ok (cols : List (Str × C))

/-- `enforce_schema` (helpers.py lines 762-774) over a table modelled as an
ordered list of (column name, column content) pairs: raise when a needed
column is missing, else select the needed columns in the schema's order
(dropping extras, which the source only warns about). -/
def enforce_schema {C : Type} (tbl : List (Str × C)) (needed : List Str) :
    SchemaResult C :=
  if (needed.filter (fun n => decide (n ∉ tbl.map Prod.fst))) = [] then
    .ok (needed.filterMap
      (fun n => (tbl.find? (fun c => decide (c.1 = n))).map (fun c => (n, c.2))))
  else .missingColumns (needed.filter (fun n => decide (n ∉ tbl.map Prod.fst)))

/-- A concrete group key (the shared group columns of the boundary scenario's
two rows, the claim's "group=1"). -/
def exC1Key : GroupKey := ⟨[], [], [], [], [], [], [], [], 0, 0, 1⟩

/-- The boundary scenario's table: two rows of one group with value columns
(0, 2, 0) and (0.1, 2.1, 0) — the claim's value1/value2 plus a constant third
value column. -/
def exC1df : List Row :=
  [⟨exC1Key, 0, 2, 0⟩, ⟨exC1Key, 1/10, 21/10, 0⟩]

/-- The boundary scenario's collapsed row: the column-wise means
(0.05, 2.05, 0). -/
def exC1Row : Row := ⟨exC1Key, 1/20, 41/20, 0⟩

/-- A concrete group key for the idempotence and tolerance witnesses. -/
def exC9Key : GroupKey := ⟨[], [], [], [], [], [], [], [], 0, 0, 2⟩

/-- A concrete row for the idempotence and tolerance witnesses. -/
def exC9Row : Row := ⟨exC9Key, 0, 0, 0⟩

/- ------------------------------------------------------------------ -/
/- Helper lemmas                                                       -/
/- ------------------------------------------------------------------ -/

lemma inferLoop_cons (t : Str × Str) (ts : List (Str × Str)) (v : Str) :
    inferLoop (t :: ts) v = inferLoop ts (if strContains v t.1 then t.2 else v) := rfl

lemma inferLoop_no_match (ts : List (Str × Str)) (v : Str)
    (h : ∀ t ∈ ts, strContains v t.1 = false) : inferLoop ts v = v := by
  induction ts with
  | nil => rfl
  | cons t ts ih =>
    rw [inferLoop_cons, h t (List.mem_cons_self t ts)]
    simp only [Bool.false_eq_true, if_false]
    exact ih fun u hu => h u (List.mem_cons_of_mem t hu)

lemma foldr_max_nonneg (l : List ℚ) : 0 ≤ l.foldr max 0 := by
  induction l with
  | nil => simp
  | cons x xs ih => exact le_max_of_le_right ih

lemma le_foldr_max (l : List ℚ) (x : ℚ) (h : x ∈ l) : x ≤ l.foldr max 0 := by
  induction l with
  | nil => cases h
  | cons y ys ih =>
    rcases List.mem_cons.mp h with rfl | hm
    · exact le_max_left _ _
    · exact le_trans (ih hm) (le_max_right _ _)

lemma foldr_max_lt (l : List ℚ) (t : ℚ) (h0 : 0 < t) (h : ∀ x ∈ l, x < t) :
    l.foldr max 0 < t := by
  induction l with
  | nil => simpa using h0
  | cons x xs ih =>
    simp only [List.foldr_cons, max_lt_iff]
    exact ⟨h x (List.mem_cons_self x xs),
      ih fun y hy => h y (List.mem_cons_of_mem x hy)⟩

lemma maxAbsDev_nonneg (xs : List ℚ) : 0 ≤ maxAbsDev xs := foldr_max_nonneg _

lemma colMean_singleton (x : ℚ) : colMean [x] = x := by simp [colMean]

lemma maxAbsDev_singleton (x : ℚ) : maxAbsDev [x] = 0 := by
  simp [maxAbsDev, colMean_singleton]

lemma meanMaxDiff_singleton (x tol : ℚ) (h : 0 < tol) :
    meanMaxDiff [x] tol = true := by
  simp [meanMaxDiff, maxAbsDev_singleton, h]

lemma nodup_filter_eq_self {α : Type} [DecidableEq α] (l : List α)
    (hl : l.Nodup) (a : α) (ha : a ∈ l) :
    l.filter (fun b => decide (b = a)) = [a] := by
  induction l with
  | nil => cases ha
  | cons x xs ih =>
    rcases List.mem_cons.mp ha with rfl | hm
    · have hnotin : a ∉ xs := (List.nodup_cons.mp hl).1
      have hrest : xs.filter (fun b => decide (b = a)) = [] :=
        List.filter_eq_nil_iff.mpr fun b hb => by
          simp only [decide_eq_true_eq]
          rintro rfl
          exact hnotin hb
      rw [List.filter_cons]
      simp [hrest]
    · have hx : x ≠ a := by
        rintro rfl
        exact (List.nodup_cons.mp hl).1 hm
      rw [List.filter_cons]
      simp only [decide_eq_true_eq, hx, if_false]
      exact ih (List.nodup_cons.mp hl).2 hm

lemma collapseGroup_key (df : List Row) (k : GroupKey) :
    (collapseGroup df k).key = k := rfl

lemma remove_duplicates_conflict_iff (df : List Row) (tol : ℚ) :
    (∃ bad, remove_duplicates df tol = .reconciliationConflict bad) ↔
      badGroups df tol ≠ [] := by
  unfold remove_duplicates
  by_cases h : badGroups df tol = [] <;> simp [h]

lemma badGroups_ne_nil_iff (df : List Row) (tol : ℚ) :
    badGroups df tol ≠ [] ↔ ∃ r ∈ df, groupOk df tol r.key = false := by
  unfold badGroups keysOf
  rw [Ne, List.filter_eq_nil_iff]
  push_neg
  constructor
  · rintro ⟨k, hk, hbad⟩
    rcases List.mem_map.mp (List.mem_dedup.mp hk) with ⟨r, hr, rfl⟩
    exact ⟨r, hr, by simpa using hbad⟩
  · rintro ⟨r, hr, hbad⟩
    refine ⟨r.key, List.mem_dedup.mpr (List.mem_map.mpr ⟨r, hr, rfl⟩), ?_⟩
    simpa using hbad

lemma groupOk_eq_true_iff (df : List Row) (tol : ℚ) (k : GroupKey) :
    groupOk df tol k = true ↔
      (maxAbsDev ((groupRows df k).map Row.estimate) < tol ∧
       maxAbsDev ((groupRows df k).map Row.lci) < tol ∧
       maxAbsDev ((groupRows df k).map Row.uci) < tol) := by
  simp [groupOk, meanMaxDiff, Bool.and_eq_true, and_assoc]

lemma groupOk_eq_false_iff (df : List Row) (tol : ℚ) (k : GroupKey) :
    groupOk df tol k = false ↔
      ¬ (maxAbsDev ((groupRows df k).map Row.estimate) < tol ∧
         maxAbsDev ((groupRows df k).map Row.lci) < tol ∧
         maxAbsDev ((groupRows df k).map Row.uci) < tol) := by
  rw [← groupOk_eq_true_iff]
  cases h : groupOk df tol k <;> simp

/- Concrete evaluations for the boundary scenario of C1. -/

lemma exC1_keysOf : keysOf exC1df = [exC1Key] := by
  simp [keysOf, exC1df]

lemma exC1_groupRows : groupRows exC1df exC1Key = exC1df := by
  simp [groupRows, exC1df, List.filter]

lemma exC1_est : (groupRows exC1df exC1Key).map Row.estimate = [0, 1/10] := by
  rw [exC1_groupRows]; rfl

lemma exC1_lci : (groupRows exC1df exC1Key).map Row.lci = [2, 21/10] := by
  rw [exC1_groupRows]; rfl

lemma exC1_uci : (groupRows exC1df exC1Key).map Row.uci = [0, 0] := by
  rw [exC1_groupRows]; rfl

lemma exC1_mean_est : colMean [0, 1/10] = 1/20 := by
  norm_num [colMean]

lemma exC1_mean_lci : colMean [2, 21/10] = 41/20 := by
  norm_num [colMean]

lemma exC1_mean_uci : colMean [(0 : ℚ), 0] = 0 := by
  norm_num [colMean]

lemma exC1_dev_est_lt : maxAbsDev [0, 1/10] < 1/10 := by
  unfold maxAbsDev
  rw [exC1_mean_est]
  refine foldr_max_lt _ _ (by norm_num) ?_
  intro x hx
  simp only [List.map_cons, List.map_nil, List.mem_cons, List.not_mem_nil,
    or_false] at hx
  rcases hx with rfl | rfl <;> rw [abs_sub_lt_iff] <;> constructor <;> norm_num

lemma exC1_dev_lci_lt : maxAbsDev [2, 21/10] < 1/10 := by
  unfold maxAbsDev
  rw [exC1_mean_lci]
  refine foldr_max_lt _ _ (by norm_num) ?_
  intro x hx
  simp only [List.map_cons, List.map_nil, List.mem_cons, List.not_mem_nil,
    or_false] at hx
  rcases hx with rfl | rfl <;> rw [abs_sub_lt_iff] <;> constructor <;> norm_num

lemma exC1_dev_uci_lt : maxAbsDev [(0 : ℚ), 0] < 1/10 := by
  unfold maxAbsDev
  rw [exC1_mean_uci]
  refine foldr_max_lt _ _ (by norm_num) ?_
  intro x hx
  simp only [List.map_cons, List.map_nil, List.mem_cons, List.not_mem_nil,
    or_false] at hx
  rcases hx with rfl | rfl <;> rw [abs_sub_lt_iff] <;> constructor <;> norm_num

lemma exC1_dev_est_ge : ¬ (maxAbsDev [0, 1/10] < 1/100) := by
  unfold maxAbsDev
  rw [exC1_mean_est]
  intro h
  have hx : |(0 : ℚ) - 1/20| ∈ ([0, 1/10].map fun x => |x - 1/20|) := by simp
  have hle := le_foldr_max _ _ hx
  have habs : |(0 : ℚ) - 1/20| = 1/20 := by
    rw [abs_sub_comm]
    rw [abs_of_nonneg (by norm_num : (0 : ℚ) ≤ 1/20 - 0)]
    norm_num
  rw [habs] at hle
  linarith

lemma exC1_groupOk_true : groupOk exC1df (1/10) exC1Key = true := by
  rw [groupOk_eq_true_iff, exC1_est, exC1_lci, exC1_uci]
  exact ⟨exC1_dev_est_lt, exC1_dev_lci_lt, exC1_dev_uci_lt⟩

lemma exC1_groupOk_false : groupOk exC1df (1/100) exC1Key = false := by
  rw [groupOk_eq_false_iff, exC1_est]
  intro hc
  exact exC1_dev_est_ge hc.1

lemma exC1_badGroups_nil : badGroups exC1df (1/10) = [] := by
  unfold badGroups
  rw [exC1_keysOf]
  have hb : (!(groupOk exC1df (1/10) exC1Key)) = false := by
    rw [exC1_groupOk_true]; rfl
  rw [List.filter_cons, hb]
  simp

lemma exC1_badGroups_conflict : badGroups exC1df (1/100) = [exC1Key] := by
  unfold badGroups
  rw [exC1_keysOf]
  have hb : (!(groupOk exC1df (1/100) exC1Key)) = true := by
    rw [exC1_groupOk_false]; rfl
  rw [List.filter_cons, hb]
  simp

lemma exC1_collapse : collapseGroup exC1df exC1Key = exC1Row := by
  unfold collapseGroup exC1Row
  rw [exC1_est, exC1_lci, exC1_uci, exC1_mean_est, exC1_mean_lci, exC1_mean_uci]

lemma exC1_eval_ok : remove_duplicates exC1df (1/10) = DedupResult.ok [exC1Row] := by
  unfold remove_duplicates
  rw [exC1_badGroups_nil, if_pos rfl, exC1_keysOf, List.map_cons, List.map_nil,
    exC1_collapse]

lemma exC1_eval_conflict :
    remove_duplicates exC1df (1/100) = DedupResult.reconciliationConflict [exC1Key] := by
  unfold remove_duplicates
  rw [exC1_badGroups_conflict, if_neg (by simp)]

lemma collapseGroup_of_single (df2 : List Row) (k : GroupKey) (r : Row)
    (h : groupRows df2 k = [r]) :
    collapseGroup df2 k = ⟨k, r.estimate, r.lci, r.uci⟩ := by
  unfold collapseGroup
  rw [h]
  simp only [List.map_cons, List.map_nil, colMean_singleton]

lemma groupRows_map_collapse (df : List Row) (k : GroupKey)
    (hk : k ∈ (df.map Row.key).dedup) :
    groupRows ((df.map Row.key).dedup.map (collapseGroup df)) k =
      [collapseGroup df k] := by
  unfold groupRows
  rw [List.filter_map]
  have hcomp : ((fun r => decide (r.key = k)) ∘ collapseGroup df) =
      fun j => decide (j = k) := funext fun j => by simp [collapseGroup]
  rw [hcomp, nodup_filter_eq_self _ (List.nodup_dedup _) k hk]
  rfl

/- ------------------------------------------------------------------ -/
/- Claim theorems                                                      -/
/- ------------------------------------------------------------------ -/

/-- C8 (evidence of the code bug): in the `append` loop of
`_replace_column_values`, the appended text is `" & ".join(phrase)`, which
joins the CHARACTERS of the phrase. At value "x" and append phrase "ab" the
code produces "x & a & b", while the claim (and the docstring "appending
strings if they are missing") requires the phrase itself appended after the
separator, "x & ab". -/
theorem claim_C8_append_joins_characters :
    appendLoop [chars "ab"] (chars "x") = chars "x & a & b" ∧
    specAppendLoop [chars "ab"] (chars "x") = chars "x & ab" := by decide

/-- C4 (evidence of the code bug): in the `transfer` loop of
`_borrow_column_values`, `new_values` is rebuilt each iteration from the
ORIGINAL columns, so only the last phrase has any effect. With transfer
phrases ["a", "b"], recipient "r" and donor "a", the code leaves the
recipient unchanged ("r"), while the claim requires every phrase found in the
donor to be appended, giving "ra". -/
theorem claim_C4_transfer_last_phrase_only :
    (transferLoop [chars "a", chars "b"]).map (fun f => f (chars "r") (chars "a")) =
      some (chars "r") ∧
    specTransfer [chars "a", chars "b"] (chars "r") (chars "a") = chars "ra" := by
  decide

/-- C5 (evidence of the code bug): in the `col_format == "both"` branch of
`clean_time_start_end`, BOTH time_start and time_end are extracted with
`r"^(.*?)-"`, the part before the separator. On the repository's own test
input "July 26 2025 - August 26 2025" the code yields "July 26 2025" for both
fields, while the claim (and the test `test_clean_time_start_end_bothcol`)
requires time_end to come from the part after the separator,
"August 26 2025". -/
theorem claim_C5_range_split_before_part_twice :
    cleanTimeBothStrings (chars "July 26 2025 - August 26 2025") =
      (some (chars "July 26 2025"), some (chars "July 26 2025")) ∧
    specTimeBothStrings (chars "July 26 2025 - August 26 2025") =
      (some (chars "July 26 2025"), some (chars "August 26 2025")) := by decide

/-- C3 (counterexample): with infer triggers [("a","b"), ("b","c")] and value
"a", the first matching trigger is "a", so the claim's first-match-wins chain
produces "b"; the code, which tests each trigger against the value already
rewritten by earlier triggers, produces "c". -/
theorem claim_C3_counterexample :
    inferLoop [(chars "a", chars "b"), (chars "b", chars "c")] (chars "a") =
      chars "c" ∧
    specFirstMatchInfer [(chars "a", chars "b"), (chars "b", chars "c")]
      (chars "a") = chars "b" := by decide

lemma inferLoop_first_match (infer : List (Str × Str)) (v : Str)
    (h : infer.Pairwise (fun a b => strContains a.2 b.1 = false)) :
    inferLoop infer v = specFirstMatchInfer infer v := by
  induction infer with
  | nil => rfl
  | cons t ts ih =>
    rcases List.pairwise_cons.mp h with ⟨h1, h2⟩
    rw [inferLoop_cons]
    by_cases hc : strContains v t.1 = true
    · rw [hc]
      simp only [if_true]
      rw [inferLoop_no_match ts t.2 h1]
      simp [specFirstMatchInfer, List.find?_cons, hc]
    · have hc2 : strContains v t.1 = false := by
        cases hv : strContains v t.1
        · rfl
        · exact absurd hv hc
      rw [hc2]
      simp only [Bool.false_eq_true, if_false]
      rw [ih h2]
      simp [specFirstMatchInfer, List.find?_cons, hc2]

lemma inferLoop_result_cases (infer : List (Str × Str)) (v : Str) :
    inferLoop infer v = v ∨ inferLoop infer v ∈ infer.map Prod.snd := by
  induction infer generalizing v with
  | nil => exact Or.inl rfl
  | cons t ts ih =>
    rw [inferLoop_cons]
    by_cases hc : strContains v t.1 = true
    · rw [hc]
      simp only [if_true]
      rcases ih t.2 with h | h
      · right
        rw [h, List.map_cons]
        exact List.mem_cons_self _ _
      · right
        rw [List.map_cons]
        exact List.mem_cons_of_mem _ h
    · have hc2 : strContains v t.1 = false := by
        cases hv : strContains v t.1
        · rfl
        · exact absurd hv hc
      rw [hc2]
      simp only [Bool.false_eq_true, if_false]
      rcases ih v with h | h
      · exact Or.inl h
      · right
        rw [List.map_cons]
        exact List.mem_cons_of_mem _ h

/-- C3 (amended): the infer triggers are applied sequentially, each tested
against the value produced by the earlier triggers, and a matching trigger
replaces the entire value with its mapped output. Hence a row whose value
never contains a trigger keeps its value, every row ends with its original
value or with some trigger's mapped output, and — provided no trigger's
mapped output contains any later trigger's phrase (otherwise the later
trigger re-replaces it, as the counterexample shows) — the chain coincides
with the claimed priority-ordered first-match-wins semantics. -/
theorem claim_C3_amended_infer_chain (infer : List (Str × Str)) (v : Str)
    (h : infer.Pairwise (fun a b => strContains a.2 b.1 = false)) :
    ((∀ t ∈ infer, strContains v t.1 = false) → inferLoop infer v = v) ∧
    (inferLoop infer v = v ∨ inferLoop infer v ∈ infer.map Prod.snd) ∧
    inferLoop infer v = specFirstMatchInfer infer v :=
  ⟨inferLoop_no_match infer v, inferLoop_result_cases infer v,
    inferLoop_first_match infer v h⟩

/-- C3 (witness): a concrete trigger list satisfying the no-retrigger side
condition, on which the chain preserves unmatched rows, lands in the mapped
outputs, and agrees with first-match-wins. -/
theorem claim_C3_amended_infer_chain_witness :
    List.Pairwise (fun a b => strContains a.2 b.1 = false)
      [(chars "a", chars "x"), (chars "b", chars "y")] ∧
    ((∀ t ∈ [(chars "a", chars "x"), (chars "b", chars "y")],
        strContains (chars "a") t.1 = false) →
      inferLoop [(chars "a", chars "x"), (chars "b", chars "y")] (chars "a") =
        chars "a") ∧
    (inferLoop [(chars "a", chars "x"), (chars "b", chars "y")] (chars "a") =
        chars "a" ∨
      inferLoop [(chars "a", chars "x"), (chars "b", chars "y")] (chars "a") ∈
        [(chars "a", chars "x"), (chars "b", chars "y")].map Prod.snd) ∧
    inferLoop [(chars "a", chars "x"), (chars "b", chars "y")] (chars "a") =
      specFirstMatchInfer [(chars "a", chars "x"), (chars "b", chars "y")]
        (chars "a") :=
  ⟨by decide, claim_C3_amended_infer_chain _ _ (by decide)⟩

/-- C7 (counterexample): "18-49 years (high risk)" matches none of the four
shapes the claim lists, yet the validator accepts it (it matches the source's
fourth regex), so on a table holding it as an age-group domain the validator
reports no violation — the claim's "exactly" fails. -/
theorem claim_C7_counterexample :
    validateAgeGroups [⟨chars "age", chars "18-49 years (high risk)"⟩] = [] ∧
    claimedAgeShapes (chars "18-49 years (high risk)") = false := by decide

/-- C7 (amended): the validator reports an age-group violation exactly for the
domain values of rows with domain_type "age" that match none of the FIVE
accepted regex shapes "N-M years|months", "N+ years|months",
"N months-M years", "N-M years (high risk)"; concretely "18-49 years",
"65+ years" and "18-49 years (high risk)" are accepted while "18–49 years"
(en dash), "18-49" (no unit) and "18 - 49 years" (stray spaces) are
rejected. -/
theorem claim_C7_amended_age_grammar (df : List DomainRow) (v : Str) :
    (v ∈ validateAgeGroups df ↔
      ((∃ r ∈ df, r.domain_type = chars "age" ∧ r.domain = v) ∧
        isValidAgeGroup v = false)) ∧
    isValidAgeGroup (chars "18-49 years") = true ∧
    isValidAgeGroup (chars "65+ years") = true ∧
    isValidAgeGroup (chars "18-49 years (high risk)") = true ∧
    isValidAgeGroup (chars "18–49 years") = false ∧
    isValidAgeGroup (chars "18-49") = false ∧
    isValidAgeGroup (chars "18 - 49 years") = false := by
  refine ⟨?_, by decide, by decide, by decide, by decide, by decide, by decide⟩
  simp only [validateAgeGroups, List.mem_filter, List.mem_dedup, List.mem_map,
    Bool.not_eq_eq_eq_not, Bool.not_true, beq_iff_eq]
  constructor
  · rintro ⟨⟨r, ⟨hr, hrt⟩, hd⟩, hv⟩
    exact ⟨⟨r, hr, hrt, hd⟩, hv⟩
  · rintro ⟨⟨r, hr, hrt, hd⟩, hv⟩
    exact ⟨⟨r, ⟨hr, hrt⟩, hd⟩, hv⟩

/-- C1: `remove_duplicates` groups rows by the group columns (every canonical
column except estimate, lci, uci); it raises `ReconciliationConflict` exactly
when some row's group fails the strict test `max |x - mean x| < tolerance` on
some numeric column, and otherwise collapses each group to one row whose
numeric columns are the column-wise means; in particular two rows of one
group with values (0, 2) and (0.1, 2.1) collapse to (0.05, 2.05) under
tolerance 0.1 and raise under tolerance 0.01. -/
theorem claim_C1_remove_duplicates (df : List Row) (tolerance : ℚ) :
    ((∃ bad, remove_duplicates df tolerance = .reconciliationConflict bad) ↔
      ∃ r ∈ df,
        ¬ (maxAbsDev ((groupRows df r.key).map Row.estimate) < tolerance ∧
           maxAbsDev ((groupRows df r.key).map Row.lci) < tolerance ∧
           maxAbsDev ((groupRows df r.key).map Row.uci) < tolerance)) ∧
    (∀ out, remove_duplicates df tolerance = DedupResult.ok out →
      (out.map Row.key).Nodup ∧
      (∀ q ∈ df, ∃ r ∈ out, r.key = q.key) ∧
      (∀ r ∈ out, (∃ q ∈ df, q.key = r.key) ∧
        r.estimate = colMean ((groupRows df r.key).map Row.estimate) ∧
        r.lci = colMean ((groupRows df r.key).map Row.lci) ∧
        r.uci = colMean ((groupRows df r.key).map Row.uci))) ∧
    remove_duplicates exC1df (1/10) = DedupResult.ok [exC1Row] ∧
    remove_duplicates exC1df (1/100) =
      DedupResult.reconciliationConflict [exC1Key] := by
  refine ⟨?_, ?_, exC1_eval_ok, exC1_eval_conflict⟩
  · rw [remove_duplicates_conflict_iff, badGroups_ne_nil_iff]
    constructor
    · rintro ⟨r, hr, hbad⟩
      exact ⟨r, hr, (groupOk_eq_false_iff df tolerance r.key).mp hbad⟩
    · rintro ⟨r, hr, hbad⟩
      exact ⟨r, hr, (groupOk_eq_false_iff df tolerance r.key).mpr hbad⟩
  · intro out hout
    unfold remove_duplicates at hout
    by_cases hb : badGroups df tolerance = []
    · rw [if_pos hb] at hout
      injection hout with hout
      subst hout
      refine ⟨?_, ?_, ?_⟩
      · simp only [keysOf, List.map_map]
        have hid : (Row.key ∘ collapseGroup df) = id := funext fun k => rfl
        rw [hid, List.map_id]
        exact List.nodup_dedup _
      · intro q hq
        refine ⟨collapseGroup df q.key, ?_, rfl⟩
        simp only [keysOf]
        exact List.mem_map.mpr
          ⟨q.key, List.mem_dedup.mpr (List.mem_map.mpr ⟨q, hq, rfl⟩), rfl⟩
      · intro r hr
        simp only [keysOf] at hr
        rcases List.mem_map.mp hr with ⟨k, hk, rfl⟩
        rcases List.mem_map.mp (List.mem_dedup.mp hk) with ⟨q, hq, rfl⟩
        exact ⟨⟨q, hq, rfl⟩, rfl, rfl, rfl⟩
    · rw [if_neg hb] at hout
      cases hout

/-- C9: re-running `remove_duplicates` with the default tolerance 0.001 on a
table it itself produced raises no error and returns that table unchanged (the
spec's idempotence property). -/
theorem claim_C9_idempotent (df out : List Row)
    (h : remove_duplicates df (1/1000) = DedupResult.ok out) :
    remove_duplicates out (1/1000) = DedupResult.ok out := by
  unfold remove_duplicates at h
  by_cases hb : badGroups df (1/1000) = []
  · rw [if_pos hb] at h
    injection h with h
    subst h
    have hmapkey : ((keysOf df).map (collapseGroup df)).map Row.key = keysOf df := by
      simp only [List.map_map]
      have hid : (Row.key ∘ collapseGroup df) = id := funext fun k => rfl
      rw [hid, List.map_id]
    have hkout : keysOf ((keysOf df).map (collapseGroup df)) = keysOf df := by
      show (((keysOf df).map (collapseGroup df)).map Row.key).dedup = keysOf df
      rw [hmapkey]
      exact List.dedup_eq_self.mpr (List.nodup_dedup _)
    have hgr : ∀ k ∈ keysOf df,
        groupRows ((keysOf df).map (collapseGroup df)) k = [collapseGroup df k] :=
      fun k hk => groupRows_map_collapse df k hk
    have hok : ∀ k ∈ keysOf df,
        groupOk ((keysOf df).map (collapseGroup df)) (1/1000) k = true := by
      intro k hk
      unfold groupOk
      rw [hgr k hk]
      simp only [List.map_cons, List.map_nil]
      rw [meanMaxDiff_singleton _ _ (by norm_num),
        meanMaxDiff_singleton _ _ (by norm_num),
        meanMaxDiff_singleton _ _ (by norm_num)]
      rfl
    have hbadout : badGroups ((keysOf df).map (collapseGroup df)) (1/1000) = [] := by
      unfold badGroups
      rw [hkout]
      refine List.filter_eq_nil_iff.mpr fun k hk => ?_
      rw [hok k hk]
      simp
    have hcoll : ∀ k ∈ keysOf df,
        collapseGroup ((keysOf df).map (collapseGroup df)) k = collapseGroup df k := by
      intro k hk
      rw [collapseGroup_of_single _ _ _ (hgr k hk)]
      rfl
    unfold remove_duplicates
    rw [if_pos hbadout, hkout]
    exact congrArg DedupResult.ok (List.map_congr_left hcoll)
  · rw [if_neg hb] at h
    cases h

/-- C9 (witness): a table of two identical rows collapses to one row, and
re-running `remove_duplicates` on that output returns it unchanged. -/
theorem claim_C9_idempotent_witness :
    remove_duplicates [exC9Row, exC9Row] (1/1000) = DedupResult.ok [exC9Row] ∧
    remove_duplicates [exC9Row] (1/1000) = DedupResult.ok [exC9Row] := by
  have h : remove_duplicates [exC9Row, exC9Row] (1/1000) = DedupResult.ok [exC9Row] := by
    simp [remove_duplicates, badGroups, keysOf, groupOk, groupRows, meanMaxDiff,
      maxAbsDev, colMean, collapseGroup, exC9Row, exC9Key]
  exact ⟨h, claim_C9_idempotent _ _ h⟩

/-- C10: for tolerance 0 or any negative tolerance, `remove_duplicates` raises
`ReconciliationConflict` on every non-empty table — even with no duplicate
groups at all — because the acceptance test `max |x - mean x| < tolerance` is
a strict inequality and every group's deviation is at least 0. -/
theorem claim_C10_nonpositive_tolerance (df : List Row) (tolerance : ℚ)
    (hne : df ≠ []) (htol : tolerance ≤ 0) :
    ∃ bad, remove_duplicates df tolerance = .reconciliationConflict bad ∧
      bad ≠ [] := by
  have hbad : badGroups df tolerance ≠ [] := by
    rw [badGroups_ne_nil_iff]
    rcases df with _ | ⟨r, rest⟩
    · exact absurd rfl hne
    · refine ⟨r, List.mem_cons_self r rest, ?_⟩
      rw [groupOk_eq_false_iff]
      rintro ⟨h1, -, -⟩
      have h0 := maxAbsDev_nonneg (((r :: rest).filter
        (fun q => decide (q.key = r.key))).map Row.estimate)
      have h1e : maxAbsDev (((r :: rest).filter
        (fun q => decide (q.key = r.key))).map Row.estimate) < tolerance := h1
      linarith
  refine ⟨badGroups df tolerance, ?_, hbad⟩
  unfold remove_duplicates
  rw [if_neg hbad]

/-- C10 (witness): at tolerance 0 a one-row table already raises. -/
theorem claim_C10_nonpositive_tolerance_witness :
    [exC9Row] ≠ [] ∧ (0 : ℚ) ≤ 0 ∧
    ∃ bad, remove_duplicates [exC9Row] 0 = .reconciliationConflict bad ∧
      bad ≠ [] :=
  ⟨by simp, le_refl 0,
    claim_C10_nonpositive_tolerance [exC9Row] 0 (by simp) (le_refl 0)⟩

lemma enforce_ok_columns {C : Type} (tbl : List (Str × C)) (needed : List Str)
    (h : ∀ n ∈ needed, n ∈ tbl.map Prod.fst) :
    (needed.filterMap
      (fun n => (tbl.find? (fun c => decide (c.1 = n))).map (fun c => (n, c.2)))).map
        Prod.fst = needed ∧
    ∀ p ∈ needed.filterMap
      (fun n => (tbl.find? (fun c => decide (c.1 = n))).map (fun c => (n, c.2))),
      p ∈ tbl := by
  induction needed with
  | nil => simp
  | cons n ns ih =>
    have hn : n ∈ tbl.map Prod.fst := h n (List.mem_cons_self n ns)
    rcases List.mem_map.mp hn with ⟨c, hc, hcn⟩
    have hsome : (tbl.find? (fun c => decide (c.1 = n))).isSome := by
      rw [List.find?_isSome]
      exact ⟨c, hc, by simp [hcn]⟩
    rcases Option.isSome_iff_exists.mp hsome with ⟨c0, hc0⟩
    have hc0n : c0.1 = n := by simpa using List.find?_some hc0
    have hc0mem : c0 ∈ tbl := List.mem_of_find?_eq_some hc0
    have ihr := ih fun m hm => h m (List.mem_cons_of_mem n hm)
    rw [List.filterMap_cons]
    rw [hc0]
    simp only [Option.map_some']
    constructor
    · rw [List.map_cons, ihr.1]
    · intro p hp
      rcases List.mem_cons.mp hp with h1 | h2
      · subst h1
        have hpc : (n, c0.2) = c0 := by
          rw [← hc0n]
        rw [hpc]
        exact hc0mem
      · exact ihr.2 p h2

/-- C6: for every input table whose column set is a superset of the canonical
schema's columns, `enforce_schema` returns exactly the canonical column list in
canonical order with the kept columns' contents unchanged, and it raises
`MissingColumns` exactly when some canonical column is absent from the
input. -/
theorem claim_C6_enforce_schema {C : Type} (tbl : List (Str × C)) :
    ((∃ m, enforce_schema tbl schemaNames = .missingColumns m) ↔
      ∃ n ∈ schemaNames, n ∉ tbl.map Prod.fst) ∧
    (∀ out, enforce_schema tbl schemaNames = SchemaResult.ok out →
      out.map Prod.fst = schemaNames ∧ ∀ p ∈ out, p ∈ tbl) := by
  constructor
  · unfold enforce_schema
    by_cases hf : (schemaNames.filter (fun n => decide (n ∉ tbl.map Prod.fst))) = []
    · rw [if_pos hf]
      constructor
      · rintro ⟨m, hm⟩
        cases hm
      · rintro ⟨n, hn, hmem⟩
        have hin : n ∈ schemaNames.filter (fun n => decide (n ∉ tbl.map Prod.fst)) :=
          List.mem_filter.mpr ⟨hn, decide_eq_true hmem⟩
        rw [hf] at hin
        cases hin
    · rw [if_neg hf]
      constructor
      · intro _
        rcases List.exists_mem_of_ne_nil _ hf with ⟨n, hn⟩
        rcases List.mem_filter.mp hn with ⟨hn1, hn2⟩
        exact ⟨n, hn1, of_decide_eq_true hn2⟩
      · intro _
        exact ⟨_, rfl⟩
  · intro out hout
    unfold enforce_schema at hout
    by_cases hf : (schemaNames.filter (fun n => decide (n ∉ tbl.map Prod.fst))) = []
    · rw [if_pos hf] at hout
      have hall : ∀ n ∈ schemaNames, n ∈ tbl.map Prod.fst := by
        intro n hn
        by_contra hc
        have hin : n ∈ schemaNames.filter (fun n => decide (n ∉ tbl.map Prod.fst)) :=
          List.mem_filter.mpr ⟨hn, decide_eq_true hc⟩
        rw [hf] at hin
        cases hin
      injection hout with hout
      subst hout
      exact enforce_ok_columns tbl schemaNames hall
    · rw [if_neg hf] at hout
      cases hout

lemma argmaxIdx_lt_length (l : List Nat) (h : l ≠ []) : argmaxIdx l < l.length := by
  induction l with
  | nil => exact absurd rfl h
  | cons v vs ih =>
    unfold argmaxIdx
    by_cases hc : v < vs.getD (argmaxIdx vs) 0
    · rw [if_pos hc]
      rcases vs with _ | ⟨w, ws⟩
      · simp at hc
      · exact Nat.succ_lt_succ (ih (by simp))
    · rw [if_neg hc]
      simp

lemma getD_le_argmaxIdx (l : List Nat) (i : Nat) (hi : i < l.length) :
    l.getD i 0 ≤ l.getD (argmaxIdx l) 0 := by
  induction l generalizing i with
  | nil => simp at hi
  | cons v vs ih =>
    unfold argmaxIdx
    by_cases hc : v < vs.getD (argmaxIdx vs) 0
    · rw [if_pos hc, List.getD_cons_succ]
      rcases i with _ | j
      · rw [List.getD_cons_zero]
        exact Nat.le_of_lt hc
      · rw [List.getD_cons_succ]
        exact ih j (Nat.lt_of_succ_lt_succ hi)
    · rw [if_neg hc, List.getD_cons_zero]
      rcases i with _ | j
      · rw [List.getD_cons_zero]
      · rw [List.getD_cons_succ]
        exact le_trans (ih j (Nat.lt_of_succ_lt_succ hi)) (Nat.le_of_not_lt hc)

lemma getD_map_length {α : Type} (subs : List (List α)) (i : Nat)
    (hi : i < subs.length) :
    (subs.map List.length).getD i 0 = (subs.getD i []).length := by
  induction subs generalizing i with
  | nil => simp at hi
  | cons s ss ih =>
    rcases i with _ | j
    · simp
    · simp only [List.map_cons, List.getD_cons_succ]
      exact ih j (Nat.lt_of_succ_lt_succ hi)

lemma mismatches_eq_nil_iff {S R : Type} [DecidableEq R]
    (subs : List (List (SynRow S R))) (refRest : List R) :
    mismatches subs refRest = [] ↔
      ∀ sub ∈ subs, ∀ r ∈ sub, r.rest ∈ refRest := by
  unfold mismatches
  rw [List.flatten_eq_nil_iff]
  constructor
  · intro h sub hsub r hr
    by_contra hc
    have hmem : r.rest ∈ (restsOf sub).filter (fun x => decide (x ∉ refRest)) :=
      List.mem_filter.mpr ⟨List.mem_map.mpr ⟨r, hr, rfl⟩, decide_eq_true hc⟩
    have hnil := h _ (List.mem_map.mpr ⟨sub, hsub, rfl⟩)
    rw [hnil] at hmem
    cases hmem
  · intro h x hx
    rcases List.mem_map.mp hx with ⟨sub, hsub, rfl⟩
    refine List.filter_eq_nil_iff.mpr fun y hy => ?_
    rcases List.mem_map.mp hy with ⟨r, hr, rfl⟩
    simp only [decide_eq_true_eq, not_not]
    exact h sub hsub r hr

lemma mem_allRests {S R : Type} (subs : List (List (SynRow S R))) (x : R) :
    x ∈ allRests subs ↔ ∃ sub ∈ subs, ∃ r ∈ sub, r.rest = x := by
  unfold allRests restsOf
  rw [List.mem_flatten]
  constructor
  · rintro ⟨l, hl, hx⟩
    rcases List.mem_map.mp hl with ⟨sub, hsub, rfl⟩
    rcases List.mem_map.mp hx with ⟨r, hr, rfl⟩
    exact ⟨sub, hsub, r, hr, rfl⟩
  · rintro ⟨sub, hsub, r, hr, rfl⟩
    exact ⟨sub.map SynRow.rest, List.mem_map.mpr ⟨sub, hsub, rfl⟩,
      List.mem_map.mpr ⟨r, hr, rfl⟩⟩

/-- C2 (evidence of the code bug): on a table shaped like the ker6_gs6z
pipeline's — synonym columns ("indicator_type", "indicator") followed by
estimate, lci, uci — with two declared synonyms covering the same
observation, the superset check passes, yet the synonym step raises polars'
ShapeError from the final positional `pl.concat` (the anti-joined operand
keeps the table's column order while `ref_df` carries the synonym columns at
the end) instead of returning the resolved table; the keep/relabel/discard
result the claim describes, `[⟨first synonym, r⟩]`, is delivered only when
the synonym columns are exactly the table's trailing columns. -/
theorem claim_C2_synonym_concat_shape_error :
    mismatches (synSubs exC2df [exC2syn0, exC2syn1])
      (restsOf (refSubOf exC2df [exC2syn0, exC2syn1])) = [] ∧
    exC2cols ≠ refDfCols exC2cols exC2synCols ∧
    resolveSynonyms exC2cols exC2synCols exC2df [exC2syn0, exC2syn1] =
      SynResult.shapeError ∧
    synResolvedRows exC2df exC2syn0 [exC2syn1] = [⟨exC2syn0, chars "r"⟩] ∧
    resolveSynonyms (refDfCols exC2cols exC2synCols) exC2synCols exC2df
      [exC2syn0, exC2syn1] = SynResult.ok [⟨exC2syn0, chars "r"⟩] := by decide

end Nis
